import Mathlib

/-!
# Verification of the NLP-Dynamic-Database query engine

Shallow embedding of `backend/api/services/query_engine.py` and proofs of the
behavioural claims about it.  Python strings are modelled as `String` /
`List Char`, SQLite rows as explicit structures, the mutable module state
(`_cache`, `_history`, `_metrics`) as explicit state records threaded through
the operations, and floating-point latencies as exact rationals.

Layout: generic list utilities first, then the embedded components in the
order they appear in the source (LRU cache, classifier, SQL synthesis,
document search, metrics/history, `process_query`), then one theorem per
claim with witnesses.
-/

namespace QueryEngine

/-! ## Character / substring utilities

`str.lower()` on ASCII text, Python's substring test `kw in q`, and the
regex word-boundary search `re.search(rf"\b{kw}\b", q)` for keywords made of
word characters only. -/

/-- ASCII lower-casing of one character (Python `str.lower` on ASCII input). -/
def lowerChar (c : Char) : Char :=
  if 'A' ≤ c ∧ c ≤ 'Z' then Char.ofNat (c.toNat + 32) else c

/-- Lower-case a whole string, as a character list. -/
def lowerStr (s : String) : List Char := s.toList.map lowerChar

/-- Does `l` start with `pre`? (Bool-valued, by recursion.) -/
def startsWithL : List Char → List Char → Bool
  | _, [] => true
  | [], _ :: _ => false
  | c :: cs, p :: ps => c = p && startsWithL cs ps

/-- Python's substring containment `kw in q`. -/
def containsSub (q kw : List Char) : Bool :=
  match q with
  | [] => startsWithL [] kw
  | _ :: rest => startsWithL q kw || containsSub rest kw

/-- A regex word character (`\w`): letter, digit or underscore. -/
def isWordChar (c : Char) : Bool := c.isAlpha || c.isDigit || c = '_'

/-- Boundary-checked match of `kw` at the current position: `kw` is a prefix
of `rest`, the previous character (if any) is a non-word character, and the
character following the match (if any) is a non-word character. -/
def wordMatchAt (prev : Option Char) (rest kw : List Char) : Bool :=
  startsWithL rest kw
    && (match prev with | none => true | some c => !isWordChar c)
    && (match rest.drop kw.length with | [] => true | c :: _ => !isWordChar c)

/-- Scan helper for `hasWord`. -/
def hasWordAux (prev : Option Char) (q kw : List Char) : Bool :=
  wordMatchAt prev q kw
    || (match q with
        | [] => false
        | c :: rest => hasWordAux (some c) rest kw)

/-- `re.search(rf"\b{kw}\b", q) is not None` for a keyword consisting of word
characters only. -/
def hasWord (q kw : List Char) : Bool := hasWordAux none q kw

/-! ## Stable keyed sorting

`list.sort(key=..., reverse=True)` in Python is a *stable* sort: elements
with equal keys keep their original relative order.  We embed it as a stable
insertion sort (extensionally equal to any stable sort for a total key
order).  `insertDesc` walks past strictly greater keys and places the new
element *before* the first element whose key is not strictly greater, so in
`sortDesc` (which inserts from the right) earlier elements of the input end
up before later elements with an equal key. -/

variable {α β : Type}

/-- Insert into a descending-by-key list, before the first element whose key
is not strictly greater. -/
def insertDesc [LinearOrder β] (key : α → β) (x : α) : List α → List α
  | [] => [x]
  | y :: ys => if key x < key y then y :: insertDesc key x ys else x :: y :: ys

/-- Stable descending sort by key. -/
def sortDesc [LinearOrder β] (key : α → β) : List α → List α
  | [] => []
  | x :: xs => insertDesc key x (sortDesc key xs)

/-- Insert into an ascending-by-key list, before the first element whose key
is not strictly smaller. -/
def insertAsc [LinearOrder β] (key : α → β) (x : α) : List α → List α
  | [] => [x]
  | y :: ys => if key y < key x then y :: insertAsc key x ys else x :: y :: ys

/-- Stable ascending sort by key. -/
def sortAsc [LinearOrder β] (key : α → β) : List α → List α
  | [] => []
  | x :: xs => insertAsc key x (sortAsc key xs)

theorem mem_insertDesc [LinearOrder β] (key : α → β) (x : α) (l : List α) (z : α) :
    z ∈ insertDesc key x l ↔ z = x ∨ z ∈ l := by
  induction l with
  | nil => simp [insertDesc]
  | cons y ys ih =>
      by_cases h : key x < key y
      · simp only [insertDesc, if_pos h, List.mem_cons, ih]
        tauto
      · simp only [insertDesc, if_neg h, List.mem_cons]

theorem insertDesc_sorted [LinearOrder β] (key : α → β) (x : α) (l : List α)
    (h : l.Pairwise (fun a b => key b ≤ key a)) :
    (insertDesc key x l).Pairwise (fun a b => key b ≤ key a) := by
  induction l with
  | nil => simp [insertDesc]
  | cons y ys ih =>
      rcases List.pairwise_cons.mp h with ⟨hy, hys⟩
      by_cases hlt : key x < key y
      · simp only [insertDesc, if_pos hlt]
        refine List.pairwise_cons.mpr ⟨?_, ih hys⟩
        intro z hz
        rcases (mem_insertDesc key x ys z).mp hz with rfl | hz'
        · exact le_of_lt hlt
        · exact hy z hz'
      · simp only [insertDesc, if_neg hlt]
        refine List.pairwise_cons.mpr ⟨?_, h⟩
        intro z hz
        rcases List.mem_cons.mp hz with rfl | hz'
        · exact le_of_not_lt hlt
        · exact le_trans (hy z hz') (le_of_not_lt hlt)

theorem sortDesc_sorted [LinearOrder β] (key : α → β) (l : List α) :
    (sortDesc key l).Pairwise (fun a b => key b ≤ key a) := by
  induction l with
  | nil => simp [sortDesc]
  | cons x xs ih => exact insertDesc_sorted key x _ ih

theorem sortDesc_perm [LinearOrder β] (key : α → β) (l : List α) :
    (sortDesc key l).Perm l := by
  induction l with
  | nil => simp [sortDesc]
  | cons x xs ih =>
      have hins : ∀ (a : α) (m : List α), (insertDesc key a m).Perm (a :: m) := by
        intro a m
        induction m with
        | nil => simp [insertDesc]
        | cons y ys ihm =>
            by_cases h : key a < key y
            · simp only [insertDesc, if_pos h]
              exact ((ihm.cons y).trans (List.Perm.swap a y ys))
            · simp only [insertDesc, if_neg h]
              exact List.Perm.refl _

      exact (hins x (sortDesc key xs)).trans (ih.cons x)

/-- Stability, as a filter characterisation: the inserted element lands
before every already-present element of equal key (it comes earlier in the
input, and `sortDesc` inserts from the right). -/
theorem filter_insertDesc_of_eq [LinearOrder β] (key : α → β) [DecidableEq β] (s : β)
    (x : α) (l : List α) (hx : key x = s) :
    (insertDesc key x l).filter (fun a => decide (key a = s))
      = x :: l.filter (fun a => decide (key a = s)) := by
  induction l with
  | nil => simp [insertDesc, List.filter, hx]
  | cons y ys ih =>
      by_cases h : key x < key y
      · have hy : ¬ key y = s := by
          intro hys
          rw [hx, hys] at h
          exact lt_irrefl _ h
        simp only [insertDesc, if_pos h, List.filter_cons, decide_eq_true_eq,
          if_neg hy, ih]
      · simp only [insertDesc, if_neg h]
        simp [List.filter_cons, hx]

theorem filter_insertDesc_of_ne [LinearOrder β] (key : α → β) [DecidableEq β] (s : β)
    (x : α) (l : List α) (hx : ¬ key x = s) :
    (insertDesc key x l).filter (fun a => decide (key a = s))
      = l.filter (fun a => decide (key a = s)) := by
  induction l with
  | nil => simp [insertDesc, List.filter, hx]
  | cons y ys ih =>
      by_cases h : key x < key y
      · simp only [insertDesc, if_pos h, List.filter_cons, ih]
      · simp [insertDesc, if_neg h, List.filter_cons, hx]

theorem sortDesc_filter_eq [LinearOrder β] (key : α → β) [DecidableEq β] (s : β)
    (l : List α) :
    (sortDesc key l).filter (fun a => decide (key a = s))
      = l.filter (fun a => decide (key a = s)) := by
  induction l with
  | nil => simp [sortDesc]
  | cons x xs ih =>
      by_cases hx : key x = s
      · rw [sortDesc, filter_insertDesc_of_eq key s x _ hx, ih]
        simp [List.filter_cons, hx]
      · rw [sortDesc, filter_insertDesc_of_ne key s x _ hx, ih]
        simp [List.filter_cons, hx]

theorem sortAsc_perm [LinearOrder β] (key : α → β) (l : List α) :
    (sortAsc key l).Perm l := by
  induction l with
  | nil => simp [sortAsc]
  | cons x xs ih =>
      have hins : ∀ (a : α) (m : List α), (insertAsc key a m).Perm (a :: m) := by
        intro a m
        induction m with
        | nil => simp [insertAsc]
        | cons y ys ihm =>
            by_cases h : key y < key a
            · simp only [insertAsc, if_pos h]
              exact ((ihm.cons y).trans (List.Perm.swap a y ys))
            · simp only [insertAsc, if_neg h]
              exact List.Perm.refl _

      exact (hins x (sortAsc key xs)).trans (ih.cons x)

theorem mem_insertAsc [LinearOrder β] (key : α → β) (x : α) (l : List α) (z : α) :
    z ∈ insertAsc key x l ↔ z = x ∨ z ∈ l := by
  induction l with
  | nil => simp [insertAsc]
  | cons y ys ih =>
      by_cases h : key y < key x
      · simp only [insertAsc, if_pos h, List.mem_cons, ih]
        tauto
      · simp only [insertAsc, if_neg h, List.mem_cons]

theorem insertAsc_sorted [LinearOrder β] (key : α → β) (x : α) (l : List α)
    (h : l.Pairwise (fun a b => key a ≤ key b)) :
    (insertAsc key x l).Pairwise (fun a b => key a ≤ key b) := by
  induction l with
  | nil => simp [insertAsc]
  | cons y ys ih =>
      rcases List.pairwise_cons.mp h with ⟨hy, hys⟩
      by_cases hlt : key y < key x
      · simp only [insertAsc, if_pos hlt]
        refine List.pairwise_cons.mpr ⟨?_, ih hys⟩
        intro z hz
        rcases (mem_insertAsc key x ys z).mp hz with rfl | hz'
        · exact le_of_lt hlt
        · exact hy z hz'
      · simp only [insertAsc, if_neg hlt]
        refine List.pairwise_cons.mpr ⟨?_, h⟩
        intro z hz
        rcases List.mem_cons.mp hz with rfl | hz'
        · exact le_of_not_lt hlt
        · exact le_trans (le_of_not_lt hlt) (hy z hz')

theorem sortAsc_sorted [LinearOrder β] (key : α → β) (l : List α) :
    (sortAsc key l).Pairwise (fun a b => key a ≤ key b) := by
  induction l with
  | nil => simp [sortAsc]
  | cons x xs ih => exact insertAsc_sorted key x _ ih

/-! ## LRUCache (`query_engine.py` lines 34-50)

The `OrderedDict` is modelled as an association list in recency order: the
head is the least-recently-used entry, the last element the most recent.
`move_to_end` is "remove the entry, append it"; `popitem(last=False)` drops
the head. -/

/-- The `LRUCache` class: a capacity plus an `OrderedDict` in recency order
(head = least recently used). -/
structure LRUCache (κ α : Type) where
  capacity : Nat
  entries : List (κ × α)
deriving Repr

variable {κ : Type} [DecidableEq κ]

namespace LRUCache

/-- The keys currently stored, in recency order. -/
def keys (c : LRUCache κ α) : List κ := c.entries.map Prod.fst

/-- `LRUCache.__init__`: an empty cache of the given capacity. -/
def empty (capacity : Nat) : LRUCache κ α := ⟨capacity, []⟩

/-- `LRUCache.get`: `None` and no mutation when absent; otherwise the entry is
moved to the most-recently-used end and its value returned. -/
def get (c : LRUCache κ α) (k : κ) : Option α × LRUCache κ α :=
  match c.entries.find? (fun e => decide (e.1 = k)) with
  | none => (none, c)
  | some e =>
      (some e.2, ⟨c.capacity, (c.entries.filter (fun e2 => decide (e2.1 ≠ k))) ++ [e]⟩)

/-- `LRUCache.set`: move an existing key to the end (keeping the new value),
or append a fresh one; then evict the least-recently-used entry if the
capacity is exceeded.  For an absent key the filter removes nothing, so both
Python branches reduce to "remove any entry with this key, append `(k, v)`". -/
def set (c : LRUCache κ α) (k : κ) (v : α) : LRUCache κ α :=
  let grown := (c.entries.filter (fun e => decide (e.1 ≠ k))) ++ [(k, v)]
  ⟨c.capacity, if grown.length > c.capacity then grown.drop 1 else grown⟩

/-- Insert each key of `ks` in order, with value `val k` (the C+1-distinct-keys
experiment from the spec's LRU property). -/
def setAll (c : LRUCache κ α) (ks : List κ) (val : κ → α) : LRUCache κ α :=
  ks.foldl (fun acc k => acc.set k (val k)) c

theorem filter_ne_of_not_mem {l : List (κ × α)} {k : κ}
    (h : k ∉ l.map Prod.fst) :
    l.filter (fun e => decide (e.1 ≠ k)) = l := by
  rw [List.filter_eq_self]
  intro e he
  simp only [decide_eq_true_eq]
  intro hek
  exact h (List.mem_map.mpr ⟨e, he, hek⟩)

/-- Filling with fresh, pairwise-distinct keys below capacity just appends
the new entries in insertion order. -/
theorem setAll_entries (val : κ → α) :
    ∀ (ks : List κ) (c : LRUCache κ α), ks.Nodup →
      (∀ a ∈ ks, a ∉ c.keys) →
      c.entries.length + ks.length ≤ c.capacity →
      (c.setAll ks val).entries = c.entries ++ ks.map (fun k => (k, val k)) := by
  intro ks
  induction ks with
  | nil => intro c _ _ _; simp [setAll]
  | cons k rest ih =>
      intro c hnd hfresh hlen
      simp only [List.length_cons] at hlen
      have hkc : k ∉ c.keys := hfresh k (List.mem_cons_self k rest)
      have hcap : (c.set k (val k)).capacity = c.capacity := rfl
      have hset : (c.set k (val k)).entries = c.entries ++ [(k, val k)] := by
        unfold set
        have hfil := filter_ne_of_not_mem (l := c.entries) (k := k) hkc
        simp only [hfil]
        have : (c.entries ++ [(k, val k)]).length ≤ c.capacity := by
          simp only [List.length_append, List.length_cons, List.length_nil]
          omega
        simp only [if_neg (by omega : ¬ (c.entries ++ [(k, val k)]).length > c.capacity)]
      have hstep : (c.setAll (k :: rest) val) = (c.set k (val k)).setAll rest val := by
        simp [setAll]
      rw [hstep, ih (c.set k (val k)) (List.Nodup.of_cons hnd) ?fresh ?len]
      · rw [hset]; simp
      case fresh =>
        intro a ha
        have hak : a ≠ k := by
          intro h; subst h
          exact (List.nodup_cons.mp hnd).1 ha
        simp only [keys, hset, List.map_append, List.mem_append]
        rintro (h1 | h2)
        · exact hfresh a (List.mem_cons_of_mem _ ha) h1
        · simp at h2; exact hak h2
      case len =>
        rw [hset, hcap]
        simp only [List.length_append, List.length_cons, List.length_nil]
        omega

theorem setAll_append (c : LRUCache κ α) (l1 l2 : List κ) (val : κ → α) :
    c.setAll (l1 ++ l2) val = (c.setAll l1 val).setAll l2 val := by
  simp [setAll, List.foldl_append]

theorem get_eq_none_of_not_mem (c : LRUCache κ α) (k : κ) (h : k ∉ c.keys) :
    c.get k = (none, c) := by
  unfold get
  have : c.entries.find? (fun e => decide (e.1 = k)) = none := by
    refine List.find?_eq_none.mpr ?_
    intro e he
    simp only [decide_eq_true_eq]
    intro hek
    exact h (List.mem_map.mpr ⟨e, he, hek⟩)
  rw [this]

theorem find?_key_append (l : List (κ × α)) (k : κ) (v : α)
    (h : ∀ e ∈ l, e.1 ≠ k) :
    ((l ++ [(k, v)]).find? (fun e => decide (e.1 = k))) = some (k, v) := by
  induction l with
  | nil => simp [List.find?]
  | cons e es ih =>
      have hek : (decide (e.1 = k)) = false := by
        simpa using h e (List.mem_cons_self e es)
      simp only [List.cons_append, List.find?_cons, hek]
      exact ih (fun e' he' => h e' (List.mem_cons_of_mem _ he'))

/-- Inserting a fresh key into a cache of capacity ≥ 1: an immediate `get`
finds the value (the fresh entry sits at the most-recently-used end and is
never the eviction victim). -/
theorem get_set_fresh (c : LRUCache κ α) (k : κ) (v : α)
    (hk : k ∉ c.keys) (hcap : 1 ≤ c.capacity) :
    ((c.set k v).get k).1 = some v := by
  unfold set
  have hfil := filter_ne_of_not_mem (l := c.entries) (k := k) hk
  simp only [hfil]
  have hkeys : ∀ e ∈ c.entries, e.1 ≠ k := by
    intro e he hek
    exact hk (List.mem_map.mpr ⟨e, he, hek⟩)
  by_cases hlen : (c.entries ++ [(k, v)]).length > c.capacity
  · rw [if_pos hlen]
    cases hes : c.entries with
    | nil =>
        exfalso
        rw [hes] at hlen
        simp at hlen
        omega
    | cons e0 es =>
        simp only [List.cons_append, List.drop_succ_cons, List.drop_zero]
        have hfind := find?_key_append es k v
          (fun e he => hkeys e (by rw [hes]; exact List.mem_cons_of_mem _ he))
        unfold get
        rw [hfind]
  · rw [if_neg hlen]
    unfold get
    rw [find?_key_append c.entries k v hkeys]

theorem setAll_capacity (val : κ → α) :
    ∀ (ks : List κ) (c : LRUCache κ α), (c.setAll ks val).capacity = c.capacity := by
  intro ks
  induction ks with
  | nil => intro c; rfl
  | cons k rest ih =>
      intro c
      have h1 : c.setAll (k :: rest) val = (c.set k (val k)).setAll rest val := by
        simp [setAll]
      rw [h1, ih]
      rfl

/-- Inserting capacity + 1 pairwise-distinct keys into an empty cache evicts
the first one: a `get` for it afterwards returns `none`.  The inserted keys
are written `init ++ [last]` with `init.length = capacity`. -/
theorem setAll_evicts_first (cap : Nat) (val : κ → α) (init : List κ) (last : κ)
    (hnd : (init ++ [last]).Nodup) (hlen : init.length = cap) :
    ((((empty cap : LRUCache κ α)).setAll (init ++ [last]) val).get
        ((init ++ [last]).headD last)).1 = none := by
  have hndinit : init.Nodup := (List.nodup_append.mp hnd).1
  have hlast : last ∉ init := by
    intro hmem
    exact (List.nodup_append.mp hnd).2.2 hmem (List.mem_singleton_self last)
  rw [setAll_append]
  have hinit : (((empty cap : LRUCache κ α)).setAll init val).entries
      = init.map (fun k => (k, val k)) := by
    have := setAll_entries (κ := κ) (α := α) val init (empty cap) hndinit
      (by intro a _; simp [empty, keys]) (by simp [empty]; omega)
    simpa [empty] using this
  have hcap1 : (((empty cap : LRUCache κ α)).setAll init val).capacity = cap :=
    (setAll_capacity val init (empty cap)).trans rfl
  set c1 := ((empty cap : LRUCache κ α)).setAll init val with hc1
  have hone : c1.setAll [last] val = c1.set last (val last) := by
    simp [setAll]
  rw [hone]
  have hfree : last ∉ c1.keys := by
    rw [keys, hinit]
    simp only [List.map_map]
    intro hmem
    rcases List.mem_map.mp hmem with ⟨a, ha, hfa⟩
    simp only [Function.comp] at hfa
    exact hlast (hfa ▸ ha)
  have hfil := filter_ne_of_not_mem (l := c1.entries) (k := last) hfree
  have hglen : (c1.entries ++ [(last, val last)]).length > c1.capacity := by
    rw [hinit, hcap1]
    simp [hlen]
  have hentries : (c1.set last (val last)).entries
      = (init.map (fun k => (k, val k)) ++ [(last, val last)]).drop 1 := by
    unfold set
    simp only [hfil]
    rw [if_pos hglen, hinit]
  cases init with
  | nil =>
      simp only [List.nil_append, List.headD_cons]
      unfold get
      rw [hentries]
      simp [List.find?]
  | cons i0 irest =>
      have hhead : ((i0 :: irest) ++ [last]).headD last = i0 := by simp
      rw [hhead]
      have hi0 : i0 ∉ irest := (List.nodup_cons.mp hndinit).1
      have hi0last : i0 ≠ last := by
        intro h
        exact hlast (h ▸ List.mem_cons_self i0 irest)
      have hnone : List.find? (fun e => decide (e.1 = i0))
          (((i0 :: irest).map (fun k => (k, val k)) ++ [(last, val last)]).drop 1)
          = none := by
        simp only [List.map_cons, List.cons_append, List.drop_succ_cons, List.drop_zero]
        refine List.find?_eq_none.mpr ?_
        intro e he
        simp only [decide_eq_true_eq]
        rcases List.mem_append.mp he with h1 | h2
        · rcases List.mem_map.mp h1 with ⟨a, ha, rfl⟩
          intro hek
          exact hi0 (hek ▸ ha)
        · intro hek
          rcases List.mem_singleton.mp h2 with rfl
          exact hi0last hek.symm
      unfold get
      rw [hentries, hnone]

/-- In a full cache (`capacity ≥ 2`), a `get` on the least-recently-used key
moves it to the most-recently-used end, so it survives the eviction triggered
by inserting one more fresh key. -/
theorem get_promotes_survives_eviction (cap : Nat) (e0 : κ × α)
    (es' : List (κ × α)) (x : κ) (v : α)
    (hnd : ((e0 :: es').map Prod.fst).Nodup)
    (hlen : (e0 :: es').length = cap) (hcap : 2 ≤ cap)
    (hx : x ∉ (e0 :: es').map Prod.fst) :
    ((((⟨cap, e0 :: es'⟩ : LRUCache κ α).get e0.1).2.set x v).get e0.1).1
      = some e0.2 := by
  have hkeys0 : e0.1 ∉ es'.map Prod.fst := by
    have h := hnd
    simp only [List.map_cons] at h
    exact (List.nodup_cons.mp h).1
  -- the first `get` finds the head and moves it to the end
  have hget1 : ((⟨cap, e0 :: es'⟩ : LRUCache κ α).get e0.1).2
      = (⟨cap, es' ++ [e0]⟩ : LRUCache κ α) := by
    unfold get
    have hfind : List.find? (fun e => decide (e.1 = e0.1)) (e0 :: es') = some e0 := by
      simp [List.find?_cons]
    rw [hfind]
    have hfil : List.filter (fun e2 => decide (e2.1 ≠ e0.1)) (e0 :: es') = es' := by
      simp only [List.filter_cons]
      rw [if_neg (by simp)]
      exact filter_ne_of_not_mem hkeys0
    rw [hfil]
  rw [hget1]
  -- the `set` of a fresh key appends it and evicts the (new) head, which is
  -- the old second entry, not the promoted one
  have hxfree : x ∉ (⟨cap, es' ++ [e0]⟩ : LRUCache κ α).keys := by
    simp only [keys, List.map_append, List.mem_append]
    intro hmem
    rcases hmem with h1 | h2
    · exact hx (by simp [h1])
    · exact hx (by simpa using Or.inl (by simpa using h2))
  have hfil2 := filter_ne_of_not_mem
    (l := (es' ++ [e0] : List (κ × α))) (k := x) (by simpa [keys] using hxfree)
  have hlen2 : ((es' ++ [e0]) ++ [(x, v)]).length > cap := by
    simp only [List.length_append, List.length_cons, List.length_nil]
    simp only [List.length_cons] at hlen
    omega
  have hset : ((⟨cap, es' ++ [e0]⟩ : LRUCache κ α).set x v).entries
      = (((es' ++ [e0]) ++ [(x, v)]).drop 1) := by
    unfold set
    simp only [hfil2]
    rw [if_pos hlen2]
  -- `es'` is nonempty, so dropping the head leaves `e0` in place
  cases es' with
  | nil =>
      exfalso
      simp only [List.length_cons, List.length_nil] at hlen
      omega
  | cons e1 es'' =>
      have hdrop : (((e1 :: es'' ++ [e0]) ++ [(x, v)]).drop 1)
          = (es'' ++ [e0]) ++ [(x, v)] := by simp
      have hfind2 : List.find? (fun e => decide (e.1 = e0.1))
          ((es'' ++ [e0]) ++ [(x, v)]) = some e0 := by
        have h1 : List.find? (fun e => decide (e.1 = e0.1)) (es'' ++ [e0])
            = some e0 := by
          have := find?_key_append (l := es'') (k := e0.1) (v := e0.2) ?keys
          · simpa using this
          case keys =>
            intro e he hek
            have : e0.1 ∈ (e1 :: es'').map Prod.fst := by
              exact List.mem_map.mpr ⟨e, List.mem_cons_of_mem _ he, hek⟩
            exact hkeys0 (by simpa using this)
        rw [List.find?_append, h1]
        rfl
      unfold get
      rw [hset, hdrop, hfind2]

end LRUCache

/-! ## QueryTypeRouter (`_classify`, lines 115-132)

Python's `k in q` substring test becomes `containsSub`, the word-boundary
regex for skill/role tokens becomes `hasWord`, both over the lower-cased
character list. -/

def sqlKeys : List String :=
  ["employee", "employees", "department", "dept", "hired", "salary", "role", "position"]

def docKeys : List String :=
  ["resume", "document", "pdf", "contract", "clause", "policy", "termination"]

def skillRoleTokens : List String :=
  ["python", "javascript", "sql", "nlp", "ml", "developer", "engineer", "manager"]

/-- `has_sql`: a SQL keyword substring or a word-boundary skill/role token. -/
def hasSqlSignal (q : String) : Bool :=
  let ql := lowerStr q
  sqlKeys.any (fun k => containsSub ql k.toList)
    || skillRoleTokens.any (fun k => hasWord ql k.toList)

/-- `has_doc`: an unstructured-document keyword substring. -/
def hasDocSignal (q : String) : Bool :=
  let ql := lowerStr q
  docKeys.any (fun k => containsSub ql k.toList)

/-- `_classify`: route to hybrid / sql / document, defaulting to sql. -/
def classify (q : String) : String :=
  if hasSqlSignal q && hasDocSignal q then "hybrid"
  else if hasSqlSignal q then "sql"
  else if hasDocSignal q then "document"
  else "sql"

/-! ## Data model for SQL synthesis (`_infer_filters`, `_detect_schema`, `_run_sql`)

An employee row as the base query sees it (SQLite is dynamically typed; the
department foreign key is kept as text so all three dialects fit).  `none`
models SQL NULL. -/

structure Row where
  id : Int
  name : Option String
  email : Option String
  position : Option String
  salary : Option Int
  hireDate : Option String
  skills : Option String
  deptFk : Option String
  reportsTo : Option String
deriving DecidableEq, Repr

/-- A department-table row (id, name, manager_id). -/
structure DeptRow where
  id : String
  name : String
  managerId : Option Int
deriving DecidableEq, Repr

/-- Per-entity column map of a `SchemaMapping` (the `emp` dict built by
`_detect_schema`): optional columns are `none` when physically absent. -/
structure EmpCols where
  id : String
  name : String
  email : Option String
  position : Option String
  salary : Option String
  hireDate : Option String
  skills : Option String
  deptFk : Option String
  reportsTo : Option String
deriving DecidableEq, Repr

/-- The mapping returned by `_detect_schema`: employee table, optional
department table, employee column map, optional department (id, name) map. -/
structure SchemaMapping where
  empTable : String
  deptTable : Option String
  emp : EmpCols
  dept : Option (String × String)
deriving DecidableEq, Repr

/-- The WHERE fragments `_infer_filters` can emit (lines 168-294), one
constructor per appended fragment kind, carrying the bound parameter values.
Column references are abstract placeholders (`E_SKILLS_COL`,
`EMAIL_IS_MISSING`, ...) until resolved against a `SchemaMapping`. -/
inductive Frag where
  | hireThisYear
  | hireYearIn (y : String)
  | hireYearAfter (y : String)
  | hireYearBefore (y : String)
  | hireYearBetween (y1 y2 : String)
  | skills (kw : String)
  | reportsTo (name : String)
  | idExact (n : Int)
  | emailExact (addr : String)
  | emailMissing
  | nameMissing
  | skillsMissing
  | deptMissing
  | posMissing
  | salaryMissing
  | hireDateMissing
  | reportsToMissing
  | deptName (kw : String)
  | posKw (kws : List String)
  | nameLike (n : String)
deriving DecidableEq, Repr

/-- The skill keywords the source regex can capture (line 202); the
`0 LIKE :kw` never-matches trick below relies on none of them being a
substring of the text `"0"`. -/
def skillsKeywords : List String :=
  ["python", "java", "javascript", "sql", "nlp", "ml", "react", "django", "postgresql"]

/-- A WHERE fragment after placeholder resolution (the result of the string
substitutions in `_run_sql` lines 449-521), shaped like the emitted SQL. -/
inductive RPred where
  | hireThisYear
  | hireYearEq (y : String)
  | hireYearGt (y : String)
  | hireYearLt (y : String)
  | hireYearBtw (y1 y2 : String)
  | or2 (p q : RPred)
  | skillsLike (kw : String)
  | posLike (kw : String)
  | constZeroLike (kw : String)
  | reportsToEq (name : String)
  | idEq (n : Int)
  | emailEq (addr : String)
  | emailNullOrEmpty
  | nameNullOrEmpty
  | skillsNullOrEmpty
  | deptFkNull
  | posNullOrEmpty
  | salaryNull
  | hireNullOrEmpty
  | reportsToNullOrEmpty
  | never
  | deptNameLike (kw : String)
  | posAnyLike (kws : List String)
  | nameLikeP (n : String)
deriving DecidableEq, Repr

/-- SQLite `LIKE '%kw%'`: case-insensitive (ASCII) substring containment. -/
def likeContains (s kw : String) : Bool :=
  containsSub (s.toList.map lowerChar) (kw.toList.map lowerChar)

/-- `strftime('%Y', col)`: the year prefix of an ISO date string. -/
def yearOf (d : Option String) : Option String :=
  d.map (fun s => ⟨s.toList.take 4⟩)

/-- Truth value of a resolved fragment on one joined row (`dn` is the joined
department name, NULL comparisons are false as in SQL). -/
def RPred.eval (nowYear : String) (r : Row) (dn : Option String) : RPred → Bool
  | .hireThisYear => yearOf r.hireDate = some nowYear
  | .hireYearEq y => yearOf r.hireDate = some y
  | .hireYearGt y =>
      match yearOf r.hireDate with
      | none => false
      | some h => decide (y < h)
  | .hireYearLt y =>
      match yearOf r.hireDate with
      | none => false
      | some h => decide (h < y)
  | .hireYearBtw y1 y2 =>
      match yearOf r.hireDate with
      | none => false
      | some h => decide (y1 ≤ h) && decide (h ≤ y2)
  | .or2 p q => p.eval nowYear r dn || q.eval nowYear r dn
  | .skillsLike kw =>
      match r.skills with
      | none => false
      | some s => likeContains s kw
  | .posLike kw =>
      match r.position with
      | none => false
      | some s => likeContains s kw
  | .constZeroLike kw => likeContains "0" kw
  | .reportsToEq name =>
      match r.reportsTo with
      | none => false
      | some s => lowerStr s = lowerStr name
  | .idEq n => r.id = n
  | .emailEq addr =>
      match r.email with
      | none => false
      | some s => lowerStr s = lowerStr addr
  | .emailNullOrEmpty => r.email = none || r.email = some ""
  | .nameNullOrEmpty => r.name = none || r.name = some ""
  | .skillsNullOrEmpty => r.skills = none || r.skills = some ""
  | .deptFkNull => r.deptFk = none
  | .posNullOrEmpty => r.position = none || r.position = some ""
  | .salaryNull => r.salary = none
  | .hireNullOrEmpty => r.hireDate = none || r.hireDate = some ""
  | .reportsToNullOrEmpty => r.reportsTo = none || r.reportsTo = some ""
  | .never => false
  | .deptNameLike kw =>
      match dn with
      | none => false
      | some s => likeContains s kw
  | .posAnyLike kws =>
      kws.any (fun kw =>
        match r.position with
        | none => false
        | some s => likeContains s kw)
  | .nameLikeP n =>
      match r.name with
      | none => false
      | some s => likeContains s n

/-- Truth value of a resolved fragment on a department-listing row (only the
department-name filter can reference this table; the emp-referencing
fragments never reach this evaluation because `_run_sql` raises on them). -/
def RPred.evalDept (d : DeptRow) : RPred → Bool
  | .deptNameLike kw => likeContains d.name kw
  | .or2 p q => p.evalDept d || q.evalDept d
  | .constZeroLike kw => likeContains "0" kw
  | _ => false

/-- The exception raised when a rendered statement references a column that
does not exist in the connected dialect (SQLite's `no such column: ...`,
caught by `process_query` and surfaced as an error envelope). -/
def litColError : String :=
  "no such column: hard-coded column reference absent from this dialect"

/-! ## Envelopes and `_run_sql` (lines 388-619) -/

/-- `{limit, offset, total}` pagination metadata. -/
structure Pagination where
  limit : Int
  offset : Int
  total : Int
deriving DecidableEq, Repr

/-- The numeric pagination entries of the bound-parameter dict (`params`);
the filter literals live inside the resolved fragments. -/
structure BoundParams where
  plimit : Option Int
  poffset : Option Int
deriving DecidableEq, Repr

/-- A result row of the SQL path: an employee row with its joined department
name, a count row, or a department-listing row. -/
inductive OutRow where
  | emp (r : Row) (department : Option String)
  | countR (n : Int)
  | deptR (id : String) (name : String) (managerId : Option Int)
deriving DecidableEq, Repr

/-- Structured stand-in for the generated SQL text: which statement shape was
built, with its resolved WHERE fragments. -/
inductive SqlShape where
  | listing (preds : List RPred)
  | counting (preds : List RPred)
  | deptListing (preds : List RPred)
deriving DecidableEq, Repr

/-- The `type`-discriminated result dict of the SQL path.  A Python key that
is absent from a particular return site is `none` here. -/
structure Envelope where
  type : String
  sql : Option SqlShape
  params : BoundParams
  rows : List OutRow
  error : Option String
  warning : Option String
  pagination : Option Pagination
deriving DecidableEq, Repr

/-- The entity-keyword → expected-table dict (lines 429-437), in insertion
order as iterated by the guard loop. -/
def entityTables : List (String × String) :=
  [("contractors", "contractors"), ("vendor", "vendors"), ("vendors", "vendors"),
   ("intern", "interns"), ("interns", "interns"),
   ("project", "projects"), ("projects", "projects")]

/-- The "missing entity" error string (line 445). -/
def missingEntityMsg (table : String) : String :=
  "error: not present in your database (missing entity: '" ++ table ++ "')"

/-- The early-return envelope for a referenced-but-absent entity table. -/
def missingEntityEnvelope (table : String) : Envelope :=
  ⟨"sql", none, ⟨none, none⟩, [], some (missingEntityMsg table), none, none⟩

/-- The entity-existence guard (lines 438-447): the first entity keyword that
occurs in the normalized query (word-boundary match) whose table is absent
short-circuits with a typed error envelope. -/
def entityGuard (qn : String) (tables : List String) : Option Envelope :=
  match entityTables.find?
      (fun p => hasWord qn.toList p.1.toList && !(decide (p.2 ∈ tables))) with
  | none => none
  | some p => some (missingEntityEnvelope p.2)

/-- Early-return envelope when an exact-email lookup was requested but the
schema has no email column (lines 459-468). -/
def missingEmailErrorEnvelope : Envelope :=
  ⟨"sql", none, ⟨none, none⟩, [],
    some "error: not present in your database (email column missing)", none, none⟩

/-- Early-return envelope when a missing-email filter was requested but the
schema has no email column (lines 483-491): a warning, not an error. -/
def missingEmailWarningEnvelope : Envelope :=
  ⟨"sql", none, ⟨none, none⟩, [], none,
    some "Email column not present; cannot filter for missing email.", none⟩

def Frag.isEmailExact : Frag → Bool
  | .emailExact _ => true
  | _ => false

/-- Resolve one fragment against the schema mapping (the placeholder
substitutions of lines 449-521).  The two email placeholders are handled by
`resolveFrags` before this point, so here the email column exists whenever an
email fragment is resolved. -/
def resolveFrag (m : SchemaMapping) : Frag → RPred
  | .hireThisYear => .hireThisYear
  | .hireYearIn y => .hireYearEq y
  | .hireYearAfter y => .hireYearGt y
  | .hireYearBefore y => .hireYearLt y
  | .hireYearBetween y1 y2 => .hireYearBtw y1 y2
  | .skills kw =>
      match m.emp.skills with
      | some _ => .or2 (.skillsLike kw) (.posLike kw)
      | none => .or2 (.constZeroLike kw) (.posLike kw)
  | .reportsTo n => .reportsToEq n
  | .idExact n => .idEq n
  | .emailExact a => .emailEq a
  | .emailMissing => .emailNullOrEmpty
  | .nameMissing => .nameNullOrEmpty
  | .skillsMissing =>
      match m.emp.skills with
      | some _ => .skillsNullOrEmpty
      | none => .never
  | .deptMissing =>
      match m.emp.deptFk with
      | some _ => .deptFkNull
      | none => .never
  | .posMissing =>
      match m.emp.position with
      | some _ => .posNullOrEmpty
      | none => .never
  | .salaryMissing => .salaryNull
  | .hireDateMissing => .hireNullOrEmpty
  | .reportsToMissing => .reportsToNullOrEmpty
  | .deptName kw => .deptNameLike kw
  | .posKw kws => .posAnyLike kws
  | .nameLike n => .nameLikeP n

/-- Resolve the whole predicate set.  Mirrors the source order: the
exact-email placeholder is checked (and errors) at line 459 before the
missing-email placeholder warns at line 483; neither of the other
substitutions can return early. -/
def resolveFrags (m : SchemaMapping) (frags : List Frag) :
    Except Envelope (List RPred) :=
  if frags.any Frag.isEmailExact && m.emp.email.isNone then
    .error missingEmailErrorEnvelope
  else if decide (Frag.emailMissing ∈ frags) && m.emp.email.isNone then
    .error missingEmailWarningEnvelope
  else
    .ok (frags.map (resolveFrag m))

/-- The department-listing branch trigger (line 545): the normalized query
mentions department(s) as a word but not employee(s). -/
def deptBranchCond (qn : String) : Bool :=
  (hasWord qn.toList "department".toList || hasWord qn.toList "departments".toList)
    && !(hasWord qn.toList "employee".toList || hasWord qn.toList "employees".toList)

/-- Effective intents modelled here: the aggregate shapes (`avg_by_dept`,
`top_paid_each_dept`) are not exercised by any claim and are outside this
embedding. -/
inductive Intent where
  | select
  | findOne
  | count
  | departmentsList
deriving DecidableEq, Repr

/-- Email deduplication (lines 524-527, 541): when an email column exists the
base query keeps, per email value (SQL groups the NULLs together), only the
row with the maximum id. -/
def dedupByEmail (db : List Row) : List Row :=
  db.filter (fun r => db.all (fun r2 => !(r2.email = r.email) || decide (r2.id ≤ r.id)))

/-- Whether the base query has the department LEFT JOIN (line 531: it needs
both the department table and its column map). -/
def SchemaMapping.hasDeptJoin (m : SchemaMapping) : Bool :=
  m.deptTable.isSome && m.dept.isSome

/-- The department-name filter is rendered with the hard-coded literal
`d.name` (line 271), not the mapped name column: it prepares only when the
department table's physical name column is literally `name`. -/
def deptNameLiteralOk (m : SchemaMapping) : Bool :=
  match m.dept with
  | some (_, n) => decide (n = "name")
  | none => false

/-- Whether every column reference of the rendered fragment exists in the
employee base statement's scope.  Placeholder-substituted references
(`E_*_COL`, `*_IS_MISSING` with a mapped column) are physical by
construction of `_detect_schema`; the failures come from the hard-coded
literals — `e.position` (lines 207, 282), `e.reports_to` (line 215),
`d.name` (line 271) — and from the fallback literals `join_date`,
`annual_salary`, `reports_to` interpolated when the mapped column is absent
(lines 417, 421, 453, 515).  On a dialect whose physical columns are named
otherwise (staff `role`, personnel `title`), preparing the statement raises
`no such column`. -/
def RPred.literalOk (m : SchemaMapping) : RPred → Bool
  | .hireThisYear => m.emp.hireDate.isSome
  | .hireYearEq _ => m.emp.hireDate.isSome
  | .hireYearGt _ => m.emp.hireDate.isSome
  | .hireYearLt _ => m.emp.hireDate.isSome
  | .hireYearBtw _ _ => m.emp.hireDate.isSome
  | .hireNullOrEmpty => m.emp.hireDate.isSome
  | .or2 p q => p.literalOk m && q.literalOk m
  | .posLike _ => decide (m.emp.position = some "position")
  | .posAnyLike _ => decide (m.emp.position = some "position")
  | .reportsToEq _ => decide (m.emp.reportsTo = some "reports_to")
  | .reportsToNullOrEmpty => m.emp.reportsTo.isSome
  | .salaryNull => m.emp.salary.isSome
  | .deptNameLike _ => m.hasDeptJoin && deptNameLiteralOk m
  | _ => true

/-- Whether the fragment can execute inside the department-listing statement
(alias `d` only): employee-alias references raise `no such column: e...`,
and the `d.name` literal needs the physical `name` column. -/
def RPred.deptStmtOk (m : SchemaMapping) : RPred → Bool
  | .deptNameLike _ => deptNameLiteralOk m
  | .or2 p q => p.deptStmtOk m && q.deptStmtOk m
  | .never => true
  | .constZeroLike _ => true
  | _ => false

/-- The joined department-name column of one base row: the joined `d.name`
when the join exists, otherwise the raw foreign-key text exposed as
`department` (line 536). -/
def joinedDept (m : SchemaMapping) (depts : List DeptRow) (r : Row) :
    Option String :=
  if m.hasDeptJoin then
    match r.deptFk with
    | none => none
    | some fk => (depts.find? (fun d => decide (d.id = fk))).map DeptRow.name
  else r.deptFk

/-- The rows produced by the base SELECT (dedup CTE + department join). -/
def baseRows (m : SchemaMapping) (db : List Row) (depts : List DeptRow) :
    List (Row × Option String) :=
  (if m.emp.email.isSome then dedupByEmail db else db).map
    (fun r => (r, joinedDept m depts r))

/-- The default listing/find-one tail of `_run_sql` (lines 594-601 plus
execution and envelope construction at 603-619): bind the clamped pagination
parameters (`find_one` forces 1/0), run the companion count query and the
ordered page, and report `{limit, offset, total}`.  When the
department-listing branch already produced a department statement, the
appended `ORDER BY e...` references a missing alias and execution raises. -/
def listingTail (preds : List RPred) (deptB : Bool) (m : SchemaMapping)
    (filtered : List (Row × Option String)) (limit offset : Int)
    (isFindOne : Bool) : Except String (Envelope × List SqlShape) :=
  if deptB then
    .error "no such column: e (ORDER BY appended to the department statement)"
  else if !(preds.all (fun p => p.literalOk m)) then
    .error litColError
  else
    let plimit : Int := max 1 (if isFindOne then 1 else limit)
    let poffset : Int := max 0 (if isFindOne then 0 else offset)
    let total : Int := filtered.length
    let page :=
      ((sortAsc (fun rd => rd.1.id) filtered).drop poffset.toNat).take plimit.toNat
    .ok (⟨"sql", some (.listing preds), ⟨some plimit, some poffset⟩,
          page.map (fun rd => .emp rd.1 rd.2), none, none,
          some ⟨plimit, poffset, total⟩⟩,
        [.counting preds, .listing preds])

/-- `_run_sql`.  The query text arrives already lower-cased and
synonym-normalized (`_normalize_tokens`); the effective intent (after the ML
override at line 404) is a parameter; `db`/`depts`/`tables` stand for the
connected database; `nowYear` for `strftime('%Y','now')`.  A `.error` result
models a Python exception escaping `_run_sql` (to be caught by
`process_query`); `.ok` carries the envelope and the statements that were
actually executed against the connection. -/
def runSql (qn nowYear : String) (tables : List String) (m : SchemaMapping)
    (frags : List Frag) (intent : Intent) (db : List Row) (depts : List DeptRow)
    (limit offset : Int) : Except String (Envelope × List SqlShape) :=
  match entityGuard qn tables with
  | some env => .ok (env, [])
  | none =>
  match resolveFrags m frags with
  | .error env => .ok (env, [])
  | .ok preds =>
    let deptB := deptBranchCond qn
    -- pagination params bound by the department branch (lines 555-556)
    let deptParams : BoundParams :=
      if deptB then ⟨some (max 1 limit), some (max 0 offset)⟩ else ⟨none, none⟩
    let filtered := (baseRows m db depts).filter
      (fun rd => preds.all (RPred.eval nowYear rd.1 rd.2))
    match intent with
    | .count =>
        -- lines 572-575: the count wraps the employee base query
        if !(preds.all (fun p => p.literalOk m)) then
          .error litColError
        else
          .ok (⟨"sql", some (.counting preds), deptParams,
                [.countR filtered.length], none, none, none⟩,
              [.counting preds])
    | .departmentsList =>
        if m.deptTable.isSome then
          if deptB then
            -- departments direct listing (lines 549-556), kept unchanged by
            -- the departments_list intent branch at line 591; its SELECT
            -- references the mapped id/name columns, so it needs the
            -- department column map
            if m.dept.isNone then
              .error litColError
            else if !(preds.all (fun p => p.deptStmtOk m)) then
              .error litColError
            else if !preds.isEmpty && m.deptTable ≠ some "departments" then
              -- line 559 re-appends the WHERE clause to a statement that
              -- already has one
              .error "malformed statement: duplicate WHERE clause"
            else
              let dfiltered :=
                depts.filter (fun d => preds.all (fun p => p.evalDept d))
              let page := ((sortAsc DeptRow.id dfiltered).drop
                  (max 0 offset).toNat).take (max 1 limit).toNat
              .ok (⟨"sql", some (.deptListing preds), deptParams,
                    page.map (fun d => .deptR d.id d.name d.managerId),
                    none, none, none⟩,
                  [.deptListing preds])
          else
            -- base listing executed without LIMIT/OFFSET and without a
            -- companion count query
            if !(preds.all (fun p => p.literalOk m)) then
              .error litColError
            else
              .ok (⟨"sql", some (.listing preds), deptParams,
                    filtered.map (fun rd => .emp rd.1 rd.2),
                    none, none, none⟩,
                  [.listing preds])
        else
          -- dt is None: the line-591 guard fails and control falls through
          -- to the default listing tail
          listingTail preds deptB m filtered limit offset false
    | .select => listingTail preds deptB m filtered limit offset false
    | .findOne => listingTail preds deptB m filtered limit offset true

/-! ## EmbeddingSearchIndex (`_search_documents`, lines 623-648)

Chunk vectors and the query vector are modelled with exact integer
coordinates (the algorithm — dot-product scoring, dimensionality filtering,
stable descending sort, slicing — is coordinate-generic).  `none` for the
store models the absent `storage/ingestion.db`. -/

/-- One persisted chunk row as read by the search join: text, embedding
vector, recorded dimensionality, owning document's filename and type. -/
structure Chunk where
  text : String
  vec : List Int
  dim : Nat
  filename : String
  docType : String
deriving DecidableEq, Repr

/-- One scored search result. -/
structure DocResult where
  text : String
  filename : String
  docType : String
  score : Int
deriving DecidableEq, Repr

/-- The document-path envelope. -/
structure DocEnvelope where
  type : String
  results : List DocResult
  error : Option String
  pagination : Option Pagination
deriving DecidableEq, Repr

/-- Dot product (cosine similarity of the pre-normalized vectors). -/
def dot : List Int → List Int → Int
  | [], _ => 0
  | _, [] => 0
  | a :: as', b :: bs => a * b + dot as' bs

/-- The chunks kept by the scan: those whose stored vector length matches
the recorded dimensionality (line 638 skips the rest). -/
def survivingChunks (chunks : List Chunk) : List Chunk :=
  chunks.filter (fun c => decide (c.vec.length = c.dim))

/-- Score every surviving chunk against the query vector. -/
def scoredResults (chunks : List Chunk) (qvec : List Int) : List DocResult :=
  (survivingChunks chunks).map
    (fun c => ⟨c.text, c.filename, c.docType, dot c.vec qvec⟩)

/-- All results sorted by descending score; Python's `list.sort` is stable,
so ties keep the storage order. -/
def rankedResults (chunks : List Chunk) (qvec : List Int) : List DocResult :=
  sortDesc DocResult.score (scoredResults chunks qvec)

/-- `_search_documents`: empty result set (not an error) without a store;
otherwise the `[start : start + max 1 top_k]` slice of the ranked list plus
total-count pagination. -/
def searchDocuments (store : Option (List Chunk)) (qvec : List Int)
    (topK offset : Int) : DocEnvelope :=
  match store with
  | none => ⟨"document", [], none, none⟩
  | some chunks =>
      let ranked := rankedResults chunks qvec
      let total : Int := ranked.length
      let start := max 0 offset
      let page := (ranked.drop start.toNat).take (max 1 topK).toNat
      ⟨"document", page, none, some ⟨max 1 topK, start, total⟩⟩

/-! ## Metrics (`_metrics`, `_record_time`, `get_metrics`, lines 57-70 and
712-719) — latencies as exact rationals. -/

/-- `_record_time`: append, then trim the window to its last 500 entries. -/
def recordTime (times : List ℚ) (elapsed : ℚ) : List ℚ :=
  let t := times ++ [elapsed]
  if t.length > 500 then t.drop (t.length - 500) else t

/-- The average latency reported by `get_metrics` (0.0 for an empty window). -/
def avgExec (times : List ℚ) : ℚ :=
  if times.isEmpty then 0 else times.sum / times.length

/-- The sorted copy of the window used for the percentile. -/
def sortedTimes (times : List ℚ) : List ℚ := sortAsc id times

/-- The p95 index of `get_metrics` line 719: `min(len(s) - 1, int(0.95 * len(s)))`.
`int(0.95 * n)` is `⌊19n/20⌋`; for every window size the binary64 product
rounds to the same floor, so Nat division is an exact model. -/
def p95Index (n : Nat) : Nat := min (n - 1) (19 * n / 20)

/-- The 95th-percentile latency reported by `get_metrics` (0.0 for an empty
window). -/
def p95Exec (times : List ℚ) : ℚ :=
  if times.isEmpty then 0
  else (sortedTimes times).getD (p95Index times.length) 0

/-- Modelled from the spec: the claim's percentile formula — the element at
index `floor(0.95 × (n − 1))`, clamped to the valid range, of the sorted
copy.  Stated only for comparison against the implementation's `p95Exec`. -/
def p95SpecFormula (times : List ℚ) : ℚ :=
  if times.isEmpty then 0
  else (sortedTimes times).getD (min (times.length - 1) (19 * (times.length - 1) / 20)) 0

/-! ## History log and `process_query` (lines 54, 661-709)

The mutable module state (`_cache`, `_history`, `_metrics`) becomes an
explicit state record.  The inner pipeline (`_classify` → `_run_sql` /
`_search_documents` → merge) is abstracted as a deterministic `compute`
function of the call arguments — determinism for a fixed database state is
exactly what the caching claims are about — together with the `type` field
projection `typeOf` used by the history entries.  `elapsed` is the measured
wall-clock duration of the call (an oracle input). -/

/-- One `_history` entry: query text, elapsed seconds, result type, cache
outcome. -/
structure HistEntry where
  q : String
  time : ℚ
  rtype : String
  cache : String
deriving DecidableEq, Repr

/-- Lines 703-704: trim the history to its last 100 entries (performed only
on the cache-miss path). -/
def trimHistory (h : List HistEntry) : List HistEntry :=
  if h.length > 100 then h.drop (h.length - 100) else h

/-- `recent_history`: `list(_history[-limit:])[::-1]`.  For `limit ≥ 1` the
slice is the last `limit` entries; Python's `-0 == 0` makes `limit = 0`
return the whole list, and a negative `limit` drops `-limit` entries from the
front. -/
def recentHistory (h : List HistEntry) (limit : Int) : List HistEntry :=
  (if 1 ≤ limit then h.drop (h.length - limit.toNat)
   else h.drop (-limit).toNat).reverse

/-- The `_metrics` counters the claims touch (the `active_*` gauges are
concurrency bookkeeping outside this sequential model). -/
structure Metrics where
  totalQueries : Nat
  cacheHits : Nat
  cacheMisses : Nat
  execTimes : List ℚ
deriving DecidableEq, Repr

/-- The module-level mutable state of `query_engine.py`. -/
structure EngineState (α : Type) where
  cache : LRUCache (String × Option String × Int) α
  history : List HistEntry
  metrics : Metrics

/-- Line 664: the cache key is the canonical JSON of
`{"q": query, "cs": connection string, "l": limit}` — injective in exactly
those three fields, so the triple is its model.  `offset`, `doc_limit` and
`doc_offset` do not participate. -/
def cacheKey (q : String) (cs : Option String) (limit : Int) :
    String × Option String × Int :=
  (q, cs, limit)

/-- `process_query`: returns the result payload together with the
`metrics.cache` tag ("hit"/"miss") of the response, and the new engine
state. -/
def processQuery {α : Type} (compute : String → Option String → Int → Int → Int → Int → α)
    (typeOf : α → String) (q : String) (cs : Option String)
    (limit offset docLimit docOffset : Int) (elapsed : ℚ)
    (s : EngineState α) : (α × String) × EngineState α :=
  let m0 : Metrics := { s.metrics with totalQueries := s.metrics.totalQueries + 1 }
  let key := cacheKey q cs limit
  let looked := s.cache.get key
  match looked.1 with
  | some v =>
      ((v, "hit"),
        { cache := looked.2,
          history := s.history ++ [⟨q, elapsed, typeOf v, "hit"⟩],
          metrics := { m0 with
            cacheHits := m0.cacheHits + 1,
            execTimes := recordTime m0.execTimes elapsed } })
  | none =>
      let final := compute q cs limit offset docLimit docOffset
      ((final, "miss"),
        { cache := looked.2.set key final,
          history := trimHistory (s.history ++ [⟨q, elapsed, typeOf final, "miss"⟩]),
          metrics := { m0 with
            cacheMisses := m0.cacheMisses + 1,
            execTimes := recordTime m0.execTimes elapsed } })

/-! ## Concrete fixtures used by the witnesses -/

/-- The default employees/departments dialect mapping (the fallback at
`_detect_schema` lines 308-326). -/
def demoMapping : SchemaMapping :=
  ⟨"employees", some "departments",
    ⟨"id", "name", some "email", some "position", some "salary",
      some "hire_date", some "skills", some "department_id",
      some "reports_to"⟩,
    some ("id", "name")⟩

/-- A staff-dialect-shaped mapping without email and skills columns (the
position column is physically named `role`). -/
def demoMappingNoEmail : SchemaMapping :=
  ⟨"staff", none,
    ⟨"id", "name", none, some "role", some "compensation",
      some "hired_on", none, some "department", some "reports_to"⟩,
    none⟩

/-- A simplified-employees-dialect mapping without a skills column (the
position column is physically named `position`, so the hard-coded
`e.position` literal resolves). -/
def demoMappingSimplified : SchemaMapping :=
  ⟨"employees", some "departments",
    ⟨"emp_id", "full_name", some "email", some "position",
      some "annual_salary", some "join_date", none, some "dept_id",
      some "reports_to"⟩,
    some ("dept_id", "dept_name")⟩

/-- One employee row for evaluating resolved predicates. -/
def demoRow : Row :=
  ⟨1, some "Ada", none, some "Senior Python Developer", some 90000,
    some "2021-03-04", none, some "Engineering", none⟩

/-- Three stored chunks, one with a corrupted vector (length ≠ dim). -/
def demoChunks : List Chunk :=
  [⟨"alpha", [1, 0], 2, "a.pdf", "pdf"⟩,
   ⟨"beta", [0, 1], 2, "b.pdf", "pdf"⟩,
   ⟨"bad", [1], 3, "c.txt", "txt"⟩]

/-! ## Claim theorems -/

/-- C3: after inserting capacity + 1 distinct keys via `set` into an empty
`LRUCache` with no intervening `get`, the first-inserted (least-recently-used)
key is evicted and a subsequent `get` for it returns `none`; and a `get` on a
present (least-recently-used) key of a full cache promotes it to
most-recently-used, so it survives the eviction caused by the next fresh
`set`. -/
theorem lruCache_evicts_lru_and_promotes_on_get
    {κ α : Type} [DecidableEq κ] (cap : Nat) (val : κ → α)
    (init : List κ) (last : κ) (e0 : κ × α) (es' : List (κ × α))
    (x : κ) (v : α) :
    ((init ++ [last]).Nodup → init.length = cap →
      ((((LRUCache.empty cap : LRUCache κ α)).setAll (init ++ [last]) val).get
          ((init ++ [last]).headD last)).1 = none)
    ∧ (((e0 :: es').map Prod.fst).Nodup → (e0 :: es').length = cap → 2 ≤ cap →
        x ∉ (e0 :: es').map Prod.fst →
        ((((⟨cap, e0 :: es'⟩ : LRUCache κ α).get e0.1).2.set x v).get e0.1).1
          = some e0.2) :=
  ⟨fun h1 h2 => LRUCache.setAll_evicts_first cap val init last h1 h2,
   fun h1 h2 h3 h4 =>
     LRUCache.get_promotes_survives_eviction cap e0 es' x v h1 h2 h3 h4⟩

theorem lruCache_evicts_lru_and_promotes_on_get_witness :
    ((((LRUCache.empty 2 : LRUCache String Nat)).setAll
        (["a", "b"] ++ ["c"]) (fun _ => 0)).get
        ((["a", "b"] ++ ["c"]).headD "c")).1 = none
    ∧ ((((⟨2, [("a", 1), ("b", 2)]⟩ : LRUCache String Nat).get
        ("a", 1).1).2.set "c" 3).get ("a", 1).1).1 = some ("a", 1).2 :=
  ⟨(lruCache_evicts_lru_and_promotes_on_get 2 (fun _ => 0) ["a", "b"] "c"
      ("a", 1) [("b", 2)] "c" 3).1 (by decide) (by decide),
   (lruCache_evicts_lru_and_promotes_on_get 2 (fun _ => 0) ["a", "b"] "c"
      ("a", 1) [("b", 2)] "c" 3).2 (by decide) (by decide) (by decide) (by decide)⟩

/-- C7: the router returns "hybrid" exactly when both a structured signal and
a document keyword are present, "sql" when only structured signals are
present, "document" when only document keywords are present, "sql" when
neither is present; and "Python developers in Marketing" classifies as "sql",
not "hybrid". -/
theorem classify_routing (q : String) :
    (classify q = "hybrid" ↔ (hasSqlSignal q = true ∧ hasDocSignal q = true))
    ∧ (hasSqlSignal q = true → hasDocSignal q = false → classify q = "sql")
    ∧ (classify q = "document"
        ↔ (hasSqlSignal q = false ∧ hasDocSignal q = true))
    ∧ (hasSqlSignal q = false → hasDocSignal q = false → classify q = "sql")
    ∧ classify "Python developers in Marketing" = "sql" := by
  refine ⟨?_, ?_, ?_, ?_, ?_⟩
  · cases hs : hasSqlSignal q <;> cases hd : hasDocSignal q <;>
      simp [classify, hs, hd]
  · intro hs hd; simp [classify, hs, hd]
  · cases hs : hasSqlSignal q <;> cases hd : hasDocSignal q <;>
      simp [classify, hs, hd]
  · intro hs hd; simp [classify, hs, hd]
  · decide

theorem classify_routing_witness :
    classify "list employee salary" = "sql" :=
  (classify_routing "list employee salary").2.1 (by decide) (by decide)

/-- C8 counterexample: on the two-entry window `[1, 2]` the implementation
(`s[min(len(s) - 1, int(0.95 * len(s)))]`) reports the element at index 1
(the maximum, 2), while the claim's formula `floor(0.95 × (n − 1))` picks
index 0 (the minimum, 1). -/
theorem getMetrics_p95_claim_counterexample :
    p95Exec [(1 : ℚ), 2] = 2 ∧ p95SpecFormula [(1 : ℚ), 2] = 1 ∧
      p95Exec [(1 : ℚ), 2] ≠ p95SpecFormula [(1 : ℚ), 2] := by
  refine ⟨by decide, by decide, by decide⟩

/-- C8 amended: for a non-empty window of n latencies, `get_metrics` reports
the 95th percentile as the element at index `min(n − 1, floor(0.95 × n))` of
an ascending-sorted permutation of the window, and the average as the
arithmetic mean; both are 0.0 when the window is empty. -/
theorem getMetrics_p95_and_avg (times : List ℚ) :
    (times ≠ [] →
      ∃ s : List ℚ, s.Perm times ∧ s.Pairwise (fun a b => a ≤ b) ∧
        p95Exec times
          = s.getD (min (times.length - 1) (19 * times.length / 20)) 0
        ∧ avgExec times = times.sum / times.length)
    ∧ avgExec [] = 0 ∧ p95Exec ([] : List ℚ) = 0 := by
  refine ⟨?_, by decide, by decide⟩
  intro hne
  have hfalse : times.isEmpty = false := by
    cases times with
    | nil => exact absurd rfl hne
    | cons a l => rfl
  refine ⟨sortedTimes times, ?_, ?_, ?_, ?_⟩
  · exact sortAsc_perm id times
  · simpa using sortAsc_sorted (id : ℚ → ℚ) times
  · rw [p95Exec, hfalse]
    rfl
  · rw [avgExec, hfalse]
    rfl

theorem getMetrics_p95_and_avg_witness :
    ∃ s : List ℚ, s.Perm [(1 : ℚ), 2] ∧ s.Pairwise (fun a b => a ≤ b) ∧
      p95Exec [(1 : ℚ), 2]
        = s.getD (min ([(1 : ℚ), 2].length - 1) (19 * [(1 : ℚ), 2].length / 20)) 0
      ∧ avgExec [(1 : ℚ), 2] = [(1 : ℚ), 2].sum / [(1 : ℚ), 2].length :=
  (getMetrics_p95_and_avg [(1 : ℚ), 2]).1 (by decide)

/-- C2: two successive `process_query` calls with identical
(query, connection string, limit, offset, doc pagination) arguments — the
key not yet cached, capacity ≥ 1, no intervening cache mutation — return
the same payload, the first tagged `metrics.cache = "miss"` and the second
`"hit"`. -/
theorem processQuery_idempotent_miss_then_hit {α : Type}
    (compute : String → Option String → Int → Int → Int → Int → α)
    (typeOf : α → String) (q : String) (cs : Option String)
    (limit offset docLimit docOffset : Int) (e1 e2 : ℚ) (s : EngineState α)
    (hkey : cacheKey q cs limit ∉ s.cache.keys)
    (hcap : 1 ≤ s.cache.capacity) :
    (processQuery compute typeOf q cs limit offset docLimit docOffset e1 s).1
      = (compute q cs limit offset docLimit docOffset, "miss")
    ∧ (processQuery compute typeOf q cs limit offset docLimit docOffset e2
        (processQuery compute typeOf q cs limit offset docLimit
          docOffset e1 s).2).1
      = (compute q cs limit offset docLimit docOffset, "hit") := by
  have h1 : s.cache.get (cacheKey q cs limit) = (none, s.cache) :=
    LRUCache.get_eq_none_of_not_mem _ _ hkey
  have h2 : ((s.cache.set (cacheKey q cs limit)
      (compute q cs limit offset docLimit docOffset)).get
      (cacheKey q cs limit)).1
      = some (compute q cs limit offset docLimit docOffset) :=
    LRUCache.get_set_fresh _ _ _ hkey hcap
  constructor
  · simp only [processQuery, h1]
  · simp only [processQuery, h1]
    simp only [processQuery, h2]

theorem processQuery_idempotent_miss_then_hit_witness :
    (processQuery (fun _ _ _ _ _ _ => (42 : Nat)) (fun _ => "sql")
        "q1" none 50 0 8 0 0 ⟨LRUCache.empty 100, [], ⟨0, 0, 0, []⟩⟩).1
      = (42, "miss")
    ∧ (processQuery (fun _ _ _ _ _ _ => (42 : Nat)) (fun _ => "sql")
        "q1" none 50 0 8 0 0
        (processQuery (fun _ _ _ _ _ _ => (42 : Nat)) (fun _ => "sql")
          "q1" none 50 0 8 0 0 ⟨LRUCache.empty 100, [], ⟨0, 0, 0, []⟩⟩).2).1
      = (42, "hit") :=
  processQuery_idempotent_miss_then_hit (fun _ _ _ _ _ _ => (42 : Nat))
    (fun _ => "sql") "q1" none 50 0 8 0 0 0
    ⟨LRUCache.empty 100, [], ⟨0, 0, 0, []⟩⟩ (by decide) (by decide)

/-- C4: the cache key is built from (query text, connection string, limit)
only, so a second call that differs solely in `offset`/`doc_limit`/
`doc_offset` produces the same key and returns the first call's cached
payload as a hit — computed with the *first* call's pagination arguments. -/
theorem processQuery_cacheKey_ignores_offsets {α : Type}
    (compute : String → Option String → Int → Int → Int → Int → α)
    (typeOf : α → String) (q : String) (cs : Option String) (limit : Int)
    (o1 o2 dl1 dl2 do1 do2 : Int) (e1 e2 : ℚ) (s : EngineState α)
    (hkey : cacheKey q cs limit ∉ s.cache.keys)
    (hcap : 1 ≤ s.cache.capacity) :
    cacheKey q cs limit = cacheKey q cs limit
    ∧ (processQuery compute typeOf q cs limit o1 dl1 do1 e1 s).1
      = (compute q cs limit o1 dl1 do1, "miss")
    ∧ (processQuery compute typeOf q cs limit o2 dl2 do2 e2
        (processQuery compute typeOf q cs limit o1 dl1 do1 e1 s).2).1
      = (compute q cs limit o1 dl1 do1, "hit") := by
  have h1 : s.cache.get (cacheKey q cs limit) = (none, s.cache) :=
    LRUCache.get_eq_none_of_not_mem _ _ hkey
  have h2 : ((s.cache.set (cacheKey q cs limit)
      (compute q cs limit o1 dl1 do1)).get (cacheKey q cs limit)).1
      = some (compute q cs limit o1 dl1 do1) :=
    LRUCache.get_set_fresh _ _ _ hkey hcap
  refine ⟨rfl, ?_, ?_⟩
  · simp only [processQuery, h1]
  · simp only [processQuery, h1]
    simp only [processQuery, h2]

theorem processQuery_cacheKey_ignores_offsets_witness :
    cacheKey "q2" none 50 = cacheKey "q2" none 50
    ∧ (processQuery (fun _ _ _ o _ _ => o) (fun _ => "sql")
        "q2" none 50 0 8 0 0 ⟨LRUCache.empty 100, [], ⟨0, 0, 0, []⟩⟩).1
      = (0, "miss")
    ∧ (processQuery (fun _ _ _ o _ _ => o) (fun _ => "sql")
        "q2" none 50 25 4 2 0
        (processQuery (fun _ _ _ o _ _ => o) (fun _ => "sql")
          "q2" none 50 0 8 0 0 ⟨LRUCache.empty 100, [], ⟨0, 0, 0, []⟩⟩).2).1
      = (0, "hit") :=
  processQuery_cacheKey_ignores_offsets (fun _ _ _ o _ _ => o) (fun _ => "sql")
    "q2" none 50 0 25 8 4 0 2 0 0
    ⟨LRUCache.empty 100, [], ⟨0, 0, 0, []⟩⟩ (by decide) (by decide)

/-- C9 counterexample: the claim says the history never exceeds 100 entries
after any `process_query` call, but the cache-hit path appends without
trimming: on a 100-entry history, a hit leaves 101 entries.  (The state is
reachable: 100 distinct misses fill the history to its cap, then one hit.) -/
theorem history_cap_counterexample :
    (processQuery (fun _ _ _ _ _ _ => (0 : Nat)) (fun _ => "sql")
        "q" none 50 0 8 0 0
        ⟨⟨100, [(("q", none, 50), 7)]⟩,
          List.replicate 100 ⟨"old", 0, "sql", "miss"⟩,
          ⟨0, 0, 0, []⟩⟩).2.history.length = 101 ∧ ¬ (101 ≤ 100) := by
  constructor
  · simp only [processQuery, LRUCache.get, cacheKey]
    rw [show (List.find? (fun e => decide (e.1 = ("q", none, 50)))
        [((("q" : String), (none : Option String), (50 : Int)), (7 : Nat))])
        = some ((("q" : String), (none : Option String), (50 : Int)), 7) by decide]
    simp
  · decide

/-- C9 amended: after any cache-miss `process_query` call the history holds
at most 100 entries; a cache-hit call appends one entry without trimming, so
the log can exceed 100 after hits; `recent_history(limit)` with `limit ≥ 1`
returns the last `min(limit, length)` entries, most-recent-first. -/
theorem history_cap_on_miss_and_recent_history {α : Type}
    (compute : String → Option String → Int → Int → Int → Int → α)
    (typeOf : α → String) (q : String) (cs : Option String)
    (limit offset docLimit docOffset : Int) (elapsed : ℚ)
    (s : EngineState α) (h : List HistEntry) (lim : Int) :
    ((s.cache.get (cacheKey q cs limit)).1 = none →
      (processQuery compute typeOf q cs limit offset docLimit docOffset
        elapsed s).2.history.length ≤ 100)
    ∧ (∀ v, (s.cache.get (cacheKey q cs limit)).1 = some v →
      (processQuery compute typeOf q cs limit offset docLimit docOffset
        elapsed s).2.history.length = s.history.length + 1)
    ∧ (1 ≤ lim →
        recentHistory h lim = (h.drop (h.length - lim.toNat)).reverse
        ∧ (recentHistory h lim).length ≤ lim.toNat) := by
  refine ⟨?_, ?_, ?_⟩
  · intro hnone
    simp only [processQuery]
    rw [hnone]
    simp only [trimHistory]
    by_cases hlen : (s.history ++ [(⟨q, elapsed, typeOf
        (compute q cs limit offset docLimit docOffset), "miss"⟩ : HistEntry)]).length > 100
    · rw [if_pos hlen]
      simp only [List.length_drop]
      omega
    · rw [if_neg hlen]
      omega
  · intro v hv
    simp only [processQuery]
    rw [hv]
    simp
  · intro hlim
    constructor
    · simp only [recentHistory, if_pos hlim]
    · simp only [recentHistory, if_pos hlim, List.length_reverse,
        List.length_drop]
      omega

theorem history_cap_on_miss_and_recent_history_witness :
    ((processQuery (fun _ _ _ _ _ _ => (0 : Nat)) (fun _ => "sql")
        "w" none 50 0 8 0 0
        ⟨LRUCache.empty 100, [], ⟨0, 0, 0, []⟩⟩).2.history.length ≤ 100)
    ∧ ((recentHistory [⟨"a", 0, "sql", "miss"⟩, ⟨"b", 0, "sql", "miss"⟩] 1)
        = ([⟨"a", 0, "sql", "miss"⟩,
            (⟨"b", 0, "sql", "miss"⟩ : HistEntry)].drop
            ([⟨"a", 0, "sql", "miss"⟩,
              (⟨"b", 0, "sql", "miss"⟩ : HistEntry)].length
              - (1 : Int).toNat)).reverse
        ∧ (recentHistory [⟨"a", 0, "sql", "miss"⟩,
            ⟨"b", 0, "sql", "miss"⟩] 1).length ≤ (1 : Int).toNat) :=
  ⟨(history_cap_on_miss_and_recent_history (fun _ _ _ _ _ _ => (0 : Nat))
      (fun _ => "sql") "w" none 50 0 8 0 0
      ⟨LRUCache.empty 100, [], ⟨0, 0, 0, []⟩⟩ [] 1).1 (by decide),
   (history_cap_on_miss_and_recent_history (fun _ _ _ _ _ _ => (0 : Nat))
      (fun _ => "sql") "w" none 50 0 8 0 0
      ⟨LRUCache.empty 100, [], ⟨0, 0, 0, []⟩⟩
      [⟨"a", 0, "sql", "miss"⟩, ⟨"b", 0, "sql", "miss"⟩] 1).2.2 (by decide)⟩

/-- C1: when the normalized query contains a known entity keyword whose
mapped table is absent from the connected schema, `_run_sql` returns a
`"sql"`-typed envelope with a "missing entity" error string, empty rows and
`sql = None`, and executes no statement against the connection. -/
theorem runSql_missing_entity_guard (qn nowYear : String) (tables : List String)
    (m : SchemaMapping) (frags : List Frag) (intent : Intent) (db : List Row)
    (depts : List DeptRow) (limit offset : Int)
    (h : ∃ p ∈ entityTables, hasWord qn.toList p.1.toList = true ∧ p.2 ∉ tables) :
    ∃ tbl, tbl ∉ tables ∧
      runSql qn nowYear tables m frags intent db depts limit offset
        = .ok (⟨"sql", none, ⟨none, none⟩, [],
            some (missingEntityMsg tbl), none, none⟩, []) := by
  set pred : String × String → Bool :=
    fun p => hasWord qn.toList p.1.toList && !(decide (p.2 ∈ tables)) with hpred
  have hne : entityTables.find? pred ≠ none := by
    intro hnone
    obtain ⟨p, hp, hw, hnt⟩ := h
    have hfalse := List.find?_eq_none.mp hnone p hp
    apply hfalse
    simp only [hpred, Bool.and_eq_true, Bool.not_eq_true',
      decide_eq_false_iff_not]
    exact ⟨hw, hnt⟩
  obtain ⟨p', hp'⟩ := Option.ne_none_iff_exists'.mp hne
  have hpr : pred p' = true := List.find?_some hp'
  have hnt' : p'.2 ∉ tables := by
    simp only [hpred, Bool.and_eq_true, Bool.not_eq_true',
      decide_eq_false_iff_not] at hpr
    exact hpr.2
  refine ⟨p'.2, hnt', ?_⟩
  unfold runSql entityGuard
  rw [hp']
  rfl

theorem runSql_missing_entity_guard_witness :
    ∃ tbl, tbl ∉ ["employees"] ∧
      runSql "show vendors" "2025" ["employees"] demoMapping []
          Intent.select [] [] 50 0
        = .ok (⟨"sql", none, ⟨none, none⟩, [],
            some (missingEntityMsg tbl), none, none⟩, []) :=
  runSql_missing_entity_guard "show vendors" "2025" ["employees"] demoMapping
    [] Intent.select [] [] 50 0
    ⟨("vendors", "vendors"), by decide, by decide, by decide⟩

/-- C5 counterexample: the claim asserts that a skills-keyword filter over
*any* mapping without a skills column finishes without error or warning, but
the skills OR-branch is rendered with the hard-coded literal `e.position`
(line 207).  On the staff dialect the position column is physically named
`role`, so preparing the statement raises `no such column: e.position`
(which `process_query` surfaces as an error envelope) instead of returning
an error-free result. -/
theorem runSql_skills_literal_column_counterexample :
    demoMappingNoEmail.emp.skills = none
    ∧ demoMappingNoEmail.emp.position = some "role"
    ∧ runSql "python staff" "2025" ["staff"] demoMappingNoEmail
        [Frag.skills "python"] .select [] [] 50 0 = .error litColError :=
  ⟨rfl, rfl, by rfl⟩

/-- C5 amended: (a) a requested missing-email filter over a mapping without
an email column makes `_run_sql` return empty rows with an explicit warning
string (and no error, no exception); (b) a skills-keyword filter over a
mapping without a skills column resolves to a never-matching skills branch —
the `0 LIKE` fragment is false for every capturable skill keyword, so the OR
evaluates to exactly its position branch; when the dialect's position column
is literally named `position` (the employees dialects) the query completes
with neither error nor warning in the envelope, while on dialects whose
position column is named otherwise (staff `role`, personnel `title`) the
hard-coded `e.position` of the OR-branch makes execution raise, surfaced by
`process_query` as an error envelope. -/
theorem runSql_email_warning_and_skills_narrowing
    (qn nowYear : String) (tables : List String) (m m2 : SchemaMapping)
    (frags : List Frag) (intent : Intent) (db : List Row)
    (depts : List DeptRow) (limit offset : Int) (kw : String) (r : Row)
    (dn : Option String) :
    (entityGuard qn tables = none → m.emp.email = none →
      Frag.emailMissing ∈ frags → frags.any Frag.isEmailExact = false →
      runSql qn nowYear tables m frags intent db depts limit offset
        = .ok (missingEmailWarningEnvelope, []))
    ∧ (m2.emp.skills = none →
        resolveFrag m2 (Frag.skills kw)
            = .or2 (.constZeroLike kw) (.posLike kw)
        ∧ (kw ∈ skillsKeywords →
            (resolveFrag m2 (Frag.skills kw)).eval nowYear r dn
              = (RPred.posLike kw).eval nowYear r dn)
        ∧ (entityGuard qn tables = none → deptBranchCond qn = false →
            m2.emp.position = some "position" →
            ∃ env trace,
              runSql qn nowYear tables m2 [Frag.skills kw] .select db depts
                  limit offset = .ok (env, trace)
                ∧ env.error = none ∧ env.warning = none)
        ∧ (entityGuard qn tables = none → deptBranchCond qn = false →
            m2.emp.position ≠ some "position" →
            runSql qn nowYear tables m2 [Frag.skills kw] .select db depts
                limit offset = .error litColError)) := by
  constructor
  · intro hg he hmem hnoex
    have h1 : (frags.any Frag.isEmailExact && m.emp.email.isNone) = false := by
      rw [hnoex]
      rfl
    have h2 : (decide (Frag.emailMissing ∈ frags) && m.emp.email.isNone)
        = true := by
      rw [he]
      simp [hmem]
    unfold runSql
    rw [hg]
    unfold resolveFrags
    rw [h1, h2]
    simp
  · intro hskills
    have hb1 : resolveFrag m2 (Frag.skills kw)
        = .or2 (.constZeroLike kw) (.posLike kw) := by
      simp [resolveFrag, hskills]
    have hres : resolveFrags m2 [Frag.skills kw]
        = .ok [resolveFrag m2 (Frag.skills kw)] := by
      unfold resolveFrags
      simp [Frag.isEmailExact]
    refine ⟨hb1, ?_, ?_, ?_⟩
    · intro hkw
      have hzero : likeContains "0" kw = false := by
        fin_cases hkw <;> decide
      rw [hb1]
      simp [RPred.eval, hzero]
    · intro hg hdB hpos
      unfold runSql
      rw [hg, hres]
      unfold listingTail
      simp [hdB, hb1, RPred.literalOk, hpos]
    · intro hg hdB hpos
      unfold runSql
      rw [hg, hres]
      unfold listingTail
      simp [hdB, hb1, RPred.literalOk, hpos]

theorem runSql_email_warning_and_skills_narrowing_witness :
    runSql "staff without email" "2025" ["staff"] demoMappingNoEmail
        [Frag.emailMissing] Intent.select [] [] 50 0
      = .ok (missingEmailWarningEnvelope, [])
    ∧ (resolveFrag demoMappingNoEmail (Frag.skills "python")).eval "2025"
        demoRow none
      = (RPred.posLike "python").eval "2025" demoRow none
    ∧ (∃ env trace,
        runSql "python developers" "2025" ["employees"] demoMappingSimplified
            [Frag.skills "python"] .select [] [] 50 0 = .ok (env, trace)
          ∧ env.error = none ∧ env.warning = none)
    ∧ runSql "python developers" "2025" ["staff"] demoMappingNoEmail
        [Frag.skills "python"] .select [] [] 50 0 = .error litColError :=
  ⟨(runSql_email_warning_and_skills_narrowing "staff without email" "2025"
      ["staff"] demoMappingNoEmail demoMappingNoEmail [Frag.emailMissing]
      Intent.select [] [] 50 0 "python" demoRow none).1
      (by decide) rfl (by decide) (by decide),
   (((runSql_email_warning_and_skills_narrowing "staff without email" "2025"
      ["staff"] demoMappingNoEmail demoMappingNoEmail [Frag.emailMissing]
      Intent.select [] [] 50 0 "python" demoRow none).2 rfl).2.1
      (by decide)),
   (((runSql_email_warning_and_skills_narrowing "python developers" "2025"
      ["employees"] demoMappingSimplified demoMappingSimplified []
      Intent.select [] [] 50 0 "python" demoRow none).2 rfl).2.2.1
      (by decide) (by decide) rfl),
   (((runSql_email_warning_and_skills_narrowing "python developers" "2025"
      ["staff"] demoMappingNoEmail demoMappingNoEmail []
      Intent.select [] [] 50 0 "python" demoRow none).2 rfl).2.2.2
      (by decide) (by decide) (by decide))⟩

/-- C10: on the default listing path — when the resolved fragments' column
references all exist in the dialect, so the statement prepares — the bound
and reported limit is `max(1, limit)` and the offset `max(0, offset)`: a
requested page size below 1 becomes 1 and a negative offset becomes 0; the
`find_one` intent binds limit 1 and offset 0 regardless of the requested
values; the department-listing branch and the document search clamp
identically. -/
theorem pagination_clamping
    (qn nowYear : String) (tables : List String) (m : SchemaMapping)
    (frags : List Frag) (preds : List RPred) (db : List Row)
    (depts : List DeptRow) (limit offset : Int) (store : List Chunk)
    (qvec : List Int)
    (hguard : entityGuard qn tables = none)
    (hres : resolveFrags m frags = .ok preds)
    (hlit : preds.all (fun p => p.literalOk m) = true) :
    (deptBranchCond qn = false →
      (∃ env tr,
          runSql qn nowYear tables m frags .select db depts limit offset
            = .ok (env, tr)
          ∧ env.params = ⟨some (max 1 limit), some (max 0 offset)⟩
          ∧ ∃ pg, env.pagination = some pg ∧ pg.limit = max 1 limit
              ∧ pg.offset = max 0 offset)
      ∧ (∃ env tr,
          runSql qn nowYear tables m frags .findOne db depts limit offset
            = .ok (env, tr)
          ∧ env.params = ⟨some 1, some 0⟩
          ∧ ∃ pg, env.pagination = some pg ∧ pg.limit = 1 ∧ pg.offset = 0))
    ∧ (deptBranchCond qn = true → m.deptTable = some "departments" →
        m.dept.isSome = true →
        preds.all (fun p => p.deptStmtOk m) = true →
        ∃ env tr,
          runSql qn nowYear tables m frags .departmentsList db depts
              limit offset = .ok (env, tr)
          ∧ env.params = ⟨some (max 1 limit), some (max 0 offset)⟩)
    ∧ (∃ pg, (searchDocuments (some store) qvec limit offset).pagination
        = some pg ∧ pg.limit = max 1 limit ∧ pg.offset = max 0 offset) := by
  refine ⟨?_, ?_, ?_⟩
  · intro hdB
    constructor
    · unfold runSql
      rw [hguard, hres]
      unfold listingTail
      simp [hdB, hlit]
    · unfold runSql
      rw [hguard, hres]
      unfold listingTail
      simp [hdB, hlit]
  · intro hdB htbl hdmap hdok
    have hdn : m.dept.isNone = false := by
      cases hdm : m.dept with
      | none => rw [hdm] at hdmap; simp at hdmap
      | some d => rfl
    unfold runSql
    rw [hguard, hres]
    simp [htbl, hdB, hdn, hdok]
  · unfold searchDocuments
    exact ⟨_, rfl, rfl, rfl⟩

theorem pagination_clamping_witness :
    (∃ env tr,
        runSql "list all staff" "2025" ["staff"] demoMappingNoEmail []
            .findOne [] [] 0 (-5) = .ok (env, tr)
        ∧ env.params = ⟨some 1, some 0⟩
        ∧ ∃ pg, env.pagination = some pg ∧ pg.limit = 1 ∧ pg.offset = 0)
    ∧ (∃ env tr,
        runSql "list departments" "2025" ["employees"] demoMapping []
            .departmentsList [] [] 0 (-5) = .ok (env, tr)
        ∧ env.params = ⟨some (max 1 0), some (max 0 (-5))⟩)
    ∧ (∃ pg, (searchDocuments (some []) [] 0 (-5)).pagination = some pg
        ∧ pg.limit = max 1 0 ∧ pg.offset = max 0 (-5)) :=
  ⟨((pagination_clamping "list all staff" "2025" ["staff"] demoMappingNoEmail
      [] [] [] [] 0 (-5) [] [] (by decide) rfl rfl).1 (by decide)).2,
   (pagination_clamping "list departments" "2025" ["employees"] demoMapping
      [] [] [] [] 0 (-5) [] [] (by decide) rfl rfl).2.1 (by decide) rfl rfl rfl,
   (pagination_clamping "list all staff" "2025" ["staff"] demoMappingNoEmail
      [] [] [] [] 0 (-5) [] [] (by decide) rfl rfl).2.2⟩

/-- C6: `_search_documents` returns `{type: "document", results: []}` with no
error when no chunk store exists; otherwise it scores each surviving chunk
(vector length = recorded dim; all others are excluded) with the dot product
of its vector and the query vector, returns the requested page of the ranked
list in descending score order with ties kept in storage order, and reports
`pagination.total` equal to the number of surviving chunks. -/
theorem searchDocuments_ranking (chunks : List Chunk) (qvec : List Int)
    (topK offset : Int) :
    searchDocuments none qvec topK offset = ⟨"document", [], none, none⟩
    ∧ (searchDocuments (some chunks) qvec topK offset).results
        = ((rankedResults chunks qvec).drop (max 0 offset).toNat).take
            (max 1 topK).toNat
    ∧ (∀ r ∈ (searchDocuments (some chunks) qvec topK offset).results,
        ∃ c ∈ chunks, c.vec.length = c.dim
          ∧ r = ⟨c.text, c.filename, c.docType, dot c.vec qvec⟩)
    ∧ (searchDocuments (some chunks) qvec topK offset).results.Pairwise
        (fun a b => b.score ≤ a.score)
    ∧ (searchDocuments (some chunks) qvec topK offset).pagination
        = some ⟨max 1 topK, max 0 offset,
            ((survivingChunks chunks).length : Int)⟩
    ∧ (∀ s : Int,
        (rankedResults chunks qvec).filter (fun r => decide (r.score = s))
          = (scoredResults chunks qvec).filter (fun r => decide (r.score = s))) := by
  have hperm : (rankedResults chunks qvec).Perm (scoredResults chunks qvec) :=
    sortDesc_perm DocResult.score (scoredResults chunks qvec)
  have hsub : List.Sublist
      (((rankedResults chunks qvec).drop (max 0 offset).toNat).take
        (max 1 topK).toNat) (rankedResults chunks qvec) :=
    (List.take_sublist _ _).trans (List.drop_sublist _ _)
  refine ⟨rfl, rfl, ?_, ?_, ?_, ?_⟩
  · intro r hr
    have hr1 : r ∈ rankedResults chunks qvec := hsub.mem hr
    have hr2 : r ∈ scoredResults chunks qvec := hperm.mem_iff.mp hr1
    obtain ⟨c, hc, rfl⟩ := List.mem_map.mp hr2
    obtain ⟨hcm, hcd⟩ := List.mem_filter.mp hc
    exact ⟨c, hcm, by simpa using hcd, rfl⟩
  · exact (sortDesc_sorted DocResult.score (scoredResults chunks qvec)).sublist
      hsub
  · have hlen : (rankedResults chunks qvec).length
        = (survivingChunks chunks).length := by
      rw [hperm.length_eq]
      simp [scoredResults]
    simp [searchDocuments, hlen]
  · intro s
    exact sortDesc_filter_eq DocResult.score s (scoredResults chunks qvec)

theorem searchDocuments_ranking_witness :
    searchDocuments none [1] 8 0 = ⟨"document", [], none, none⟩
    ∧ (searchDocuments (some demoChunks) [2, 3] 8 0).results.Pairwise
        (fun a b => b.score ≤ a.score)
    ∧ (searchDocuments (some demoChunks) [2, 3] 8 0).pagination
      = some ⟨max 1 8, max 0 0, ((survivingChunks demoChunks).length : Int)⟩ :=
  ⟨(searchDocuments_ranking [] [1] 8 0).1,
   (searchDocuments_ranking demoChunks [2, 3] 8 0).2.2.2.1,
   (searchDocuments_ranking demoChunks [2, 3] 8 0).2.2.2.2.1⟩

end QueryEngine
